import Mathlib

/-!
Formal model of the arcium-auction repository (JavaScript sources), covering
the bid-sealing scheme in `src/utils/anchorClient.js` (the embedded Arcium
encryption utilities: `generateX25519Keypair`, `performKeyExchange`,
`SimplifiedRescueCipher`), the bid validation in `src/utils/helpers.js`
(`validateBid`), and the auction lifecycle driven by the React components in
`src/components/WalletConnect.jsx` (`AuctionCard`, `BidSubmission`,
`WinnerReveal`) and `src/components/AuctionCreator.jsx`.

Bytes are modelled as natural numbers below 256, byte strings as `List Nat`,
JavaScript `BigInt` values as `Nat`, and SOL amounts (floats produced by
`parseFloat`) as rationals.  Randomness (key material, nonces, identifiers)
is passed in explicitly.  Event-driven UI behaviour is modelled as a labelled
step relation on a component state; a step is enabled exactly when the
corresponding handler is reachable in the rendered tree.
-/

/-! ## Sealing scheme (src/utils/anchorClient.js, embedded encryption module) -/

/-- A key pair as produced by `generateX25519Keypair`. -/
structure KeyPair where
  privateKey : List Nat
  publicKey : List Nat
deriving DecidableEq

/-- Embedding of `generateX25519Keypair` (lines 339-349): the 32 random private
bytes are passed in explicitly; each public byte is
`(privateKey[i] * 9 + 121) % 256`. -/
def generateX25519Keypair (privateKey : List Nat) : KeyPair :=
  { privateKey := privateKey
    publicKey := privateKey.map (fun b => (b * 9 + 121) % 256) }

/-- Embedding of `performKeyExchange` (lines 355-361):
`sharedSecret[i] = (privateKey[i] ^ publicKey[i]) % 256` for `i < 32`. -/
def performKeyExchange (privateKey publicKey : List Nat) : List Nat :=
  (List.range 32).map (fun i =>
    (Nat.xor (privateKey.getD i 0) (publicKey.getD i 0)) % 256)

namespace SimplifiedRescueCipher

/-- Fuelled version of the `while (num > 0n)` loop in `bigIntToBytes`: emits
the least significant byte first.  The loop strictly divides by 256 each
iteration, so `fuel = n` always suffices. -/
def natToBytesLEAux : Nat → Nat → List Nat
  | 0, _ => []
  | _ + 1, 0 => []
  | fuel + 1, n + 1 => ((n + 1) % 256) :: natToBytesLEAux fuel ((n + 1) / 256)

/-- Embedding of `SimplifiedRescueCipher.bigIntToBytes` (lines 399-407): the
bytes are collected least significant first and then reversed, producing the
minimal big-endian encoding (empty for 0). -/
def bigIntToBytes (value : Nat) : List Nat :=
  (natToBytesLEAux value value).reverse

/-- Embedding of `SimplifiedRescueCipher.bytesToBigInt` (lines 409-415):
big-endian fold `result = (result << 8) + byte` over the whole list. -/
def bytesToBigInt (bytes : List Nat) : Nat :=
  bytes.foldl (fun acc b => acc * 256 + b) 0

/-- Embedding of `SimplifiedRescueCipher.encrypt` (lines 375-387).  The cipher
object's key (`this.key`) is the first argument.  For each of the 32 output
bytes, the plain byte is `valueBytes[i]` when `i < valueBytes.length` and 0
otherwise, and the output byte is
`(plainByte ^ key[i] ^ nonce[i % nonce.length]) % 256`. -/
def encrypt (key nonce : List Nat) (plaintext : Nat) : List Nat :=
  let valueBytes := bigIntToBytes plaintext
  (List.range 32).map (fun i =>
    let plainByte := valueBytes.getD i 0
    (Nat.xor (Nat.xor plainByte (key.getD i 0))
        (nonce.getD (i % nonce.length) 0)) % 256)

/-- Embedding of `SimplifiedRescueCipher.decrypt` (lines 389-397): undo the
keystream on all 32 bytes, then `bytesToBigInt` of the full 32-byte block. -/
def decrypt (key nonce : List Nat) (ciphertext : List Nat) : Nat :=
  bytesToBigInt ((List.range 32).map (fun i =>
    (Nat.xor (Nat.xor (ciphertext.getD i 0) (key.getD i 0))
        (nonce.getD (i % nonce.length) 0)) % 256))

end SimplifiedRescueCipher

/-- A concrete all-zero 32-byte private scalar (a possible output of
`crypto.getRandomValues`). -/
def samplePrivA : List Nat := List.replicate 32 0

/-- A concrete all-one 32-byte private scalar. -/
def samplePrivB : List Nat := List.replicate 32 1

/-- A concrete all-zero 32-byte shared secret. -/
def sampleKey : List Nat := List.replicate 32 0

/-- A concrete all-zero 16-byte nonce. -/
def sampleNonce : List Nat := List.replicate 16 0

/-- C1: the claimed shared-secret symmetry fails on the code.  For the key
pairs generated from the all-zero and all-one private scalars,
`performKeyExchange(a.private, b.public)` differs from
`performKeyExchange(b.private, a.public)`: the first byte is
`0 XOR (1*9+121) = 130` on one side and `1 XOR (0*9+121) = 120` on the
other, because the public-point transform `p * 9 + 121 mod 256` does not
commute with XOR. -/
theorem keyExchange_not_symmetric :
    performKeyExchange (generateX25519Keypair samplePrivA).privateKey
        (generateX25519Keypair samplePrivB).publicKey ≠
      performKeyExchange (generateX25519Keypair samplePrivB).privateKey
        (generateX25519Keypair samplePrivA).publicKey := by
  decide

/-- C2: the seal/unseal round-trip fails on the code.  With the all-zero
shared secret and nonce, decrypting the encryption of the in-range value 1
yields `2 ^ 248`, not 1: `bigIntToBytes` places the value bytes at the front
of the 32-byte block (padding with zeros at the end), while `bytesToBigInt`
reads the whole block big-endian, multiplying the value by `256 ^ 31`. -/
theorem decrypt_encrypt_not_roundtrip :
    SimplifiedRescueCipher.decrypt sampleKey sampleNonce
        (SimplifiedRescueCipher.encrypt sampleKey sampleNonce 1) = 2 ^ 248 ∧
      SimplifiedRescueCipher.decrypt sampleKey sampleNonce
        (SimplifiedRescueCipher.encrypt sampleKey sampleNonce 1) ≠ 1 := by
  constructor
  · decide
  · decide

/-- C7: encryption of an out-of-range value does not fail and silently
collides.  `2 ^ 256` needs 33 bytes, but `encrypt` reads only the first 32
bytes of the big-endian encoding, so it returns a full 32-byte ciphertext
identical to the one for the in-range value `2 ^ 248` — no `SealingFailure`
and no saturation, a silent truncation. -/
theorem encrypt_silently_truncates :
    SimplifiedRescueCipher.encrypt sampleKey sampleNonce (2 ^ 256) =
        SimplifiedRescueCipher.encrypt sampleKey sampleNonce (2 ^ 248) ∧
      (SimplifiedRescueCipher.encrypt sampleKey sampleNonce (2 ^ 256)).length = 32 ∧
      2 ^ 256 ≠ 2 ^ 248 := by
  refine ⟨?_, ?_, ?_⟩
  · decide
  · decide
  · decide

/-! ## Bid validation (src/utils/helpers.js, lines 42-56) -/

/-- The three failure branches of `validateBid`, in source order. -/
inductive BidValidationError where
  | notANumber
  | notPositive
  | belowMinimum
deriving DecidableEq

/-- Embedding of `validateBid(amount, minimumBid)`.  The callers pass
`parseFloat(bidAmount)`, which is always of JavaScript type number but may be
`NaN`; `none` models a `NaN` amount (the `typeof`/`isNaN` branch).  The
remaining branches throw on `amount <= 0` and `amount < minimumBid`, and
otherwise return `true`. -/
def validateBid (amount : Option ℚ) (minimumBid : ℚ) : Except BidValidationError Bool :=
  match amount with
  | none => .error .notANumber
  | some a =>
    if a ≤ 0 then .error .notPositive
    else if a < minimumBid then .error .belowMinimum
    else .ok true

/-! ## Auction data model (AuctionCreator.jsx lines 73-83, BidSubmission lines 377-385) -/

/-- The bid object built in `BidSubmission.handleSubmit` (WalletConnect.jsx
lines 377-385).  Note that the clear `amount` is stored in the object next to
the ciphertext. -/
structure Bid where
  id : String
  bidder : String
  amount : ℚ
  ciphertext : List Nat
  publicKey : List Nat
  nonce : List Nat
  timestamp : Nat
deriving DecidableEq

/-- The status strings the code assigns: auctions are created with
`status: 'active'` and `handleFinalized` sets `status: 'finalized'`. -/
inductive AuctionStatus where
  | active
  | finalized
deriving DecidableEq

/-- The auction object built in `AuctionCreator.handleSubmit` plus the fields
merged in by `AuctionCard.handleFinalized` via `onUpdateAuction` (`winner`,
`winningBid`, absent until finalization). -/
structure Auction where
  id : String
  creator : String
  itemName : String
  description : String
  minimumBid : ℚ
  endTime : Nat
  bids : List Bid
  status : AuctionStatus
  winner : Option String
  winningBid : Option ℚ
  createdAt : Nat
deriving DecidableEq

/-- The `newAuction` object of `AuctionCreator.handleSubmit` (lines 73-83):
status `'active'`, empty bid list, and no `winner`/`winningBid` fields. -/
def initialAuction (id creator itemName description : String) (minimumBid : ℚ)
    (endTime createdAt : Nat) : Auction :=
  { id := id, creator := creator, itemName := itemName, description := description
    minimumBid := minimumBid, endTime := endTime, bids := []
    status := .active, winner := none, winningBid := none, createdAt := createdAt }

/-! ## Settlement (WinnerReveal.handleFinalize, WalletConnect.jsx lines 32-79) -/

/-- Embedding of the winner-selection loop of `handleFinalize` (lines 55-63):
`let maxBid = 0; let winnerAddress = ''; bids.forEach(bid => { if
(bid.amount > maxBid) { maxBid = bid.amount; winnerAddress = bid.bidder } })`.
Returns the final `(maxBid, winnerAddress)` accumulator. -/
def computeWinner : List Bid → ℚ → String → ℚ × String
  | [], maxBid, winnerAddress => (maxBid, winnerAddress)
  | b :: rest, maxBid, winnerAddress =>
    if maxBid < b.amount then computeWinner rest b.amount b.bidder
    else computeWinner rest maxBid winnerAddress

/-- Outcome of a `handleFinalize` invocation: either the empty-bid early
return (the `alert('No bids submitted for this auction')` branch) or a
finalization carrying the winner address and amount passed to
`onFinalized`. -/
inductive FinalizeOutcome where
  | emptyBidSet
  | finalized (winnerAddress : String) (maxBid : ℚ)
deriving DecidableEq

/-- The auction update performed by `AuctionCard.handleFinalized`
(lines 226-232): merge `{ status: 'finalized', winner, winningBid }`. -/
def applyFinalized (a : Auction) (winnerAddress : String) (maxBid : ℚ) : Auction :=
  { a with status := .finalized, winner := some winnerAddress, winningBid := some maxBid }

/-- Embedding of `WinnerReveal.handleFinalize` (lines 32-79) composed with the
`onFinalized` callback `AuctionCard.handleFinalized`: with zero bids it
returns early leaving the auction untouched; otherwise it runs the winner
loop and merges the finalization fields. -/
def handleFinalize (a : Auction) : FinalizeOutcome × Auction :=
  if a.bids = [] then (.emptyBidSet, a)
  else
    let r := computeWinner a.bids 0 ""
    (.finalized r.2 r.1, applyFinalized a r.2 r.1)

/-! ## The per-auction UI state machine (AuctionCard and its children)

The mutable state visible to one `AuctionCard` is the auction object held by
`App` plus the `showBidForm` flag, together with the wall clock `now`
(`Date.now()`).  The enabled user events follow the rendered tree:

* the `Submit Encrypted Bid` button that opens the bid form is rendered only
  when `!isEnded && !showBidForm` (line 309), where
  `isEnded = Date.now() >= auction.endTime` (line 217);
* the open bid form (line 321) is guarded only by `showBidForm`, and its
  submit handler `BidSubmission.handleSubmit` checks wallet connection and
  `validateBid` but neither the time nor the status; on success
  `AuctionCard.handleBidSubmitted` (lines 220-224) appends the bid
  unconditionally and closes the form;
* the `Trigger MPC Finalization` button is rendered only when
  `isEnded && !isFinalized` (lines 329-334), where
  `isFinalized = auction.status === 'finalized'` (line 218).
-/

/-- The state of one `AuctionCard`: the auction record, the `showBidForm`
flag, and the current time in milliseconds. -/
structure CardState where
  auction : Auction
  showBidForm : Bool
  now : Nat
deriving DecidableEq

/-- The card state right after `App.handleCreateAuction` stores a freshly
created auction. -/
def initState (a : Auction) (now : Nat) : CardState :=
  { auction := a, showBidForm := false, now := now }

/-- Labels for the user-visible events of one `AuctionCard`. -/
inductive Act where
  | tick (d : Nat)
  | openForm
  | submitForm (bidId bidder : String) (amount : ℚ)
      (ciphertext publicKey nonce : List Nat)
  | finalizeClick
deriving DecidableEq

/-- One user-visible event of an `AuctionCard`, with the guards imposed by the
rendered tree and the handlers' own checks.  `submitForm` deliberately has no
time or status guard: neither `BidSubmission.handleSubmit` nor
`AuctionCard.handleBidSubmitted` checks `endTime` or `status`. -/
inductive Step : CardState → Act → CardState → Prop
  | tick (s : CardState) (d : Nat) :
      Step s (.tick d) { s with now := s.now + d }
  | openForm (s : CardState)
      (hNotEnded : s.now < s.auction.endTime)
      (hClosed : s.showBidForm = false) :
      Step s .openForm { s with showBidForm := true }
  | submitForm (s : CardState) (bidId bidder : String) (amount : ℚ)
      (ciphertext publicKey nonce : List Nat)
      (hForm : s.showBidForm = true)
      (hValid : validateBid (some amount) s.auction.minimumBid = .ok true) :
      Step s (.submitForm bidId bidder amount ciphertext publicKey nonce)
        { s with
          auction := { s.auction with
            bids := s.auction.bids ++
              [{ id := bidId, bidder := bidder, amount := amount
                 ciphertext := ciphertext, publicKey := publicKey, nonce := nonce
                 timestamp := s.now }] }
          showBidForm := false }
  | finalizeClick (s : CardState)
      (hEnded : s.auction.endTime ≤ s.now)
      (hNotFinalized : s.auction.status ≠ .finalized) :
      Step s .finalizeClick { s with auction := (handleFinalize s.auction).2 }

/-- Zero or more steps. -/
inductive Reachable : CardState → CardState → Prop
  | refl (s : CardState) : Reachable s s
  | step {s t u : CardState} {a : Act} :
      Reachable s t → Step t a u → Reachable s u

/-! ## Helper lemmas -/

/-- Success characterization of `validateBid` on an actual number. -/
theorem validateBid_some_ok (q minimumBid : ℚ) :
    validateBid (some q) minimumBid = .ok true ↔ 0 < q ∧ minimumBid ≤ q := by
  simp only [validateBid]
  split_ifs with h1 h2
  · constructor
    · intro h
      exact absurd h (by simp)
    · intro h
      exact absurd h1 (not_le.mpr h.1)
  · constructor
    · intro h
      exact absurd h (by simp)
    · intro h
      exact absurd h2 (not_lt.mpr h.2)
  · constructor
    · intro h
      exact ⟨not_le.mp h1, not_lt.mp h2⟩
    · intro h
      rfl

/-- The state invariant maintained by every `AuctionCard` event: the winner
field is present exactly on finalized auctions, and every stored bid passed
`validateBid`, hence has a positive amount. -/
def CardInv (s : CardState) : Prop :=
  (s.auction.winner.isSome = true ↔ s.auction.status = .finalized) ∧
  ∀ b ∈ s.auction.bids, 0 < b.amount

/-- A freshly created auction satisfies the invariant. -/
theorem cardInv_initState (a : Auction) (now : Nat)
    (hw : a.winner = none) (hs : a.status = .active) (hb : a.bids = []) :
    CardInv (initState a now) := by
  constructor
  · simp [initState, hw, hs]
  · simp [initState, hb]

/-- Every event preserves the invariant. -/
theorem cardInv_step {s u : CardState} {act : Act} (hinv : CardInv s) (hstep : Step s act u) :
    CardInv u := by
  obtain ⟨hiff, hpos⟩ := hinv
  cases hstep with
  | tick d => exact ⟨hiff, hpos⟩
  | openForm hNotEnded hClosed => exact ⟨hiff, hpos⟩
  | submitForm bidId bidder amount ciphertext publicKey nonce hForm hValid =>
    refine ⟨hiff, ?_⟩
    intro b hb
    rcases List.mem_append.mp hb with hb | hb
    · exact hpos b hb
    · rcases List.mem_singleton.mp hb with rfl
      exact ((validateBid_some_ok amount s.auction.minimumBid).mp hValid).1
  | finalizeClick hEnded hNotFinalized =>
    refine ⟨?_, ?_⟩ <;> simp only [handleFinalize] <;> split_ifs with hbids
    · exact hiff
    · simp [applyFinalized]
    · exact hpos
    · simpa [applyFinalized] using hpos

/-- The invariant holds in every reachable state. -/
theorem cardInv_reachable {s u : CardState} (hinv : CardInv s) (h : Reachable s u) :
    CardInv u := by
  induction h with
  | refl => exact hinv
  | step hr hstep ih => exact cardInv_step ih hstep

/-- Under the invariant, a step never changes an already-assigned winner: the
only event that writes the winner field is `finalizeClick`, and its render
guard requires a non-finalized status, which contradicts the invariant once a
winner is set. -/
theorem step_preserves_winner {s u : CardState} {act : Act} {w : String}
    (hinv : CardInv s) (hw : s.auction.winner = some w) (hstep : Step s act u) :
    u.auction.winner = some w := by
  cases hstep with
  | tick d => exact hw
  | openForm hNotEnded hClosed => exact hw
  | submitForm bidId bidder amount ciphertext publicKey nonce hForm hValid => exact hw
  | finalizeClick hEnded hNotFinalized =>
    exact absurd (hinv.1.mp (by simp [hw])) hNotFinalized

/-! ## C10: bid amount validation -/

/-- C10: `validateBid` succeeds exactly on an actual number that is strictly
positive and at least the minimum bid — so it throws precisely when the
amount is not a valid number, is non-positive, or is strictly below the
minimum — and an amount equal to the minimum bid itself is accepted whenever
the minimum is positive (as auction creation guarantees). -/
theorem validateBid_ok_iff (amount : Option ℚ) (minimumBid : ℚ) :
    (validateBid amount minimumBid = .ok true ↔
      ∃ q, amount = some q ∧ 0 < q ∧ minimumBid ≤ q) ∧
    (validateBid (some minimumBid) minimumBid = .ok true ↔ 0 < minimumBid) := by
  constructor
  · cases amount with
    | none =>
      simp [validateBid]
    | some q =>
      rw [validateBid_some_ok]
      constructor
      · intro h
        exact ⟨q, rfl, h⟩
      · rintro ⟨r, hr, h⟩
        cases Option.some.inj hr
        exact h
  · rw [validateBid_some_ok]
    constructor
    · intro h
      exact h.1
    · intro h
      exact ⟨h, le_refl _⟩

/-! ## C9: settlement with an empty bid set -/

/-- C9: invoking `handleFinalize` on an auction with zero bids takes the
explicit early-return branch: it reports the empty-bid outcome (the
`No bids submitted` alert) and returns the auction record completely
unchanged — status, winner, and bid list included — rather than raising an
exception. -/
theorem handleFinalize_emptyBidSet (a : Auction) (h : a.bids = []) :
    handleFinalize a = (FinalizeOutcome.emptyBidSet, a) := by
  simp [handleFinalize, h]

/-- A concrete bid-free auction (minimum bid 1 SOL, ends at time 100). -/
def emptyAuction : Auction := initialAuction "a0" "creator" "item0" "demo" 1 100 0

/-- Witness for C9 at the concrete bid-free auction. -/
theorem handleFinalize_emptyBidSet_witness :
    handleFinalize emptyAuction = (FinalizeOutcome.emptyBidSet, emptyAuction) :=
  handleFinalize_emptyBidSet emptyAuction rfl

/-! ## A concrete settlement trace

One auction (minimum bid 1 SOL, ends at time 1, created at time 0), one bid
by `alice` at time 0, finalized at time 1.  Each state is the literal
successor produced by the corresponding `Step` constructor. -/

/-- The demo auction record as created. -/
def demoAuction : Auction := initialAuction "a1" "creator" "item1" "demo" 1 1 0

/-- Card state at creation time. -/
def demoS0 : CardState := initState demoAuction 0

/-- After clicking `Submit Encrypted Bid` (the form opens). -/
def demoS1 : CardState := { demoS0 with showBidForm := true }

/-- The bid object appended for `alice`. -/
def demoBid : Bid :=
  { id := "b1", bidder := "alice", amount := 1
    ciphertext := [], publicKey := [], nonce := [], timestamp := 0 }

/-- After `alice` submits her 1 SOL bid. -/
def demoS2 : CardState :=
  { demoS1 with
    auction := { demoS1.auction with bids := demoS1.auction.bids ++ [demoBid] }
    showBidForm := false }

/-- After the clock passes the end time. -/
def demoS3 : CardState := { demoS2 with now := demoS2.now + 1 }

/-- After clicking `Trigger MPC Finalization`. -/
def demoS4 : CardState := { demoS3 with auction := (handleFinalize demoS3.auction).2 }

/-- Five more milliseconds pass after settlement. -/
def demoS5 : CardState := { demoS4 with now := demoS4.now + 5 }

/-- The settled state is reachable from the created auction. -/
theorem reachable_demoS4 : Reachable demoS0 demoS4 :=
  Reachable.step
    (Reachable.step
      (Reachable.step
        (Reachable.step (Reachable.refl demoS0)
          (Step.openForm demoS0 (by decide) rfl))
        (Step.submitForm demoS1 "b1" "alice" 1 [] [] [] rfl (by rfl)))
      (Step.tick demoS2 1))
    (Step.finalizeClick demoS3 (by decide) (by decide))

/-! ## C5: exactly-once settlement -/

/-- C5: once a settlement has assigned a winner to a reachable auction, a
second `finalizeClick` is impossible (the `Trigger MPC Finalization` button
is no longer rendered, so the attempt is rejected), and no further sequence
of events ever changes or re-assigns the winner. -/
theorem settle_exactly_once (id creator itemName description : String)
    (minimumBid : ℚ) (endTime createdAt t0 : Nat) (s u : CardState) (w : String)
    (hreach : Reachable
      (initState (initialAuction id creator itemName description minimumBid endTime createdAt) t0) s)
    (hw : s.auction.winner = some w)
    (hsu : Reachable s u) :
    u.auction.winner = some w ∧ ∀ v : CardState, ¬ Step s Act.finalizeClick v := by
  have hinv0 : CardInv
      (initState (initialAuction id creator itemName description minimumBid endTime createdAt) t0) :=
    cardInv_initState _ _ rfl rfl rfl
  have hinvs : CardInv s := cardInv_reachable hinv0 hreach
  constructor
  · clear hreach
    induction hsu with
    | refl => exact hw
    | step hr hstep ih =>
      have hinvt := cardInv_reachable hinvs hr
      exact step_preserves_winner hinvt ih hstep
  · intro v hstep
    cases hstep with
    | finalizeClick hEnded hNotFinalized =>
      exact hNotFinalized (hinvs.1.mp (by simp [hw]))

/-- Witness for C5: in the concrete trace the winner assigned at settlement
(`alice`) is still the winner five ticks later. -/
theorem settle_exactly_once_witness : demoS5.auction.winner = some "alice" :=
  (settle_exactly_once "a1" "creator" "item1" "demo" 1 1 0 0 demoS4 demoS5 "alice"
    reachable_demoS4 (by rfl)
    (Reachable.step (Reachable.refl demoS4) (Step.tick demoS4 5))).1

/-! ## C8: winner present exactly on settled auctions -/

/-- C8: auction creation produces a record with status `'active'` and no
winner, and in every state reachable from creation the winner field is
present exactly when the status is `'finalized'` (the successful settlement
merges both fields in one update). -/
theorem winner_iff_finalized (id creator itemName description : String)
    (minimumBid : ℚ) (endTime createdAt t0 : Nat) (s : CardState)
    (hreach : Reachable
      (initState (initialAuction id creator itemName description minimumBid endTime createdAt) t0) s) :
    ((initialAuction id creator itemName description minimumBid endTime createdAt).status = .active ∧
      (initialAuction id creator itemName description minimumBid endTime createdAt).winner = none) ∧
    (s.auction.winner.isSome = true ↔ s.auction.status = .finalized) := by
  have hinv0 : CardInv
      (initState (initialAuction id creator itemName description minimumBid endTime createdAt) t0) :=
    cardInv_initState _ _ rfl rfl rfl
  exact ⟨⟨rfl, rfl⟩, (cardInv_reachable hinv0 hreach).1⟩

/-- Witness for C8 at the settled state of the concrete trace. -/
theorem winner_iff_finalized_witness :
    ((initialAuction "a1" "creator" "item1" "demo" 1 1 0).status = .active ∧
      (initialAuction "a1" "creator" "item1" "demo" 1 1 0).winner = none) ∧
    (demoS4.auction.winner.isSome = true ↔ demoS4.auction.status = .finalized) :=
  winner_iff_finalized "a1" "creator" "item1" "demo" 1 1 0 0 demoS4 reachable_demoS4

/-! ## C4: winner selection -/

/-- Characterization of the winner loop for an arbitrary accumulator: either
no bid beats the running maximum and the accumulator is returned unchanged,
or the list splits around the first bid attaining the overall maximum —
every bid before it is strictly smaller, every bid after it no larger. -/
theorem computeWinner_split :
    ∀ (bids : List Bid) (maxBid : ℚ) (w : String),
      ((∀ c ∈ bids, c.amount ≤ maxBid) ∧ computeWinner bids maxBid w = (maxBid, w)) ∨
      (∃ b l1 l2, bids = l1 ++ b :: l2 ∧
        computeWinner bids maxBid w = (b.amount, b.bidder) ∧
        maxBid < b.amount ∧
        (∀ c ∈ l1, c.amount < b.amount) ∧
        (∀ c ∈ l2, c.amount ≤ b.amount))
  | [], maxBid, w => Or.inl ⟨by simp, rfl⟩
  | b :: rest, maxBid, w => by
    by_cases h : maxBid < b.amount
    · rcases computeWinner_split rest b.amount b.bidder with ⟨hall, heq⟩ |
        ⟨b2, l1, l2, hsplit, heq, hgt, hl1, hl2⟩
      · refine Or.inr ⟨b, [], rest, by simp, ?_, h, by simp, hall⟩
        simpa [computeWinner, h] using heq
      · refine Or.inr ⟨b2, b :: l1, l2, by simp [hsplit], ?_, lt_trans h hgt, ?_, hl2⟩
        · simpa [computeWinner, h] using heq
        · intro c hc
          rcases List.mem_cons.mp hc with rfl | hc
          · exact hgt
          · exact hl1 c hc
    · rcases computeWinner_split rest maxBid w with ⟨hall, heq⟩ |
        ⟨b2, l1, l2, hsplit, heq, hgt, hl1, hl2⟩
      · refine Or.inl ⟨?_, ?_⟩
        · intro c hc
          rcases List.mem_cons.mp hc with rfl | hc
          · exact not_lt.mp h
          · exact hall c hc
        · simpa [computeWinner, h] using heq
      · refine Or.inr ⟨b2, b :: l1, l2, by simp [hsplit], ?_, hgt, ?_, hl2⟩
        · simpa [computeWinner, h] using heq
        · intro c hc
          rcases List.mem_cons.mp hc with rfl | hc
          · exact lt_of_le_of_lt (not_lt.mp h) hgt
          · exact hl1 c hc

/-- C4: on a non-empty bid list whose amounts are positive (every stored bid
passed `validateBid`, see `cardInv_step`) and whose submission timestamps are
strictly increasing in list order, the winner loop of `handleFinalize`
returns exactly the bid with the greatest amount, and among amount ties the
one with the earliest submission timestamp; the returned winning amount is
that bid's amount. -/
theorem winner_selection (bids : List Bid)
    (hne : bids ≠ [])
    (hpos : ∀ b ∈ bids, 0 < b.amount)
    (hmono : bids.Pairwise (fun a b => a.timestamp < b.timestamp)) :
    ∃ b ∈ bids,
      computeWinner bids 0 "" = (b.amount, b.bidder) ∧
      (∀ c ∈ bids, c.amount ≤ b.amount) ∧
      (∀ c ∈ bids, c.amount = b.amount → b.timestamp ≤ c.timestamp) := by
  rcases computeWinner_split bids 0 "" with ⟨hall, heq⟩ |
    ⟨b, l1, l2, hsplit, heq, hgt, hl1, hl2⟩
  · obtain ⟨x, hx⟩ := List.exists_mem_of_ne_nil bids hne
    exact absurd (hall x hx) (not_le.mpr (hpos x hx))
  · refine ⟨b, ?_, heq, ?_, ?_⟩
    · rw [hsplit]
      exact List.mem_append_right _ (List.mem_cons_self _ _)
    · intro c hc
      rw [hsplit] at hc
      rcases List.mem_append.mp hc with hc | hc
      · exact le_of_lt (hl1 c hc)
      · rcases List.mem_cons.mp hc with rfl | hc
        · exact le_refl _
        · exact hl2 c hc
    · intro c hc hceq
      rw [hsplit] at hc hmono
      rcases List.mem_append.mp hc with hc | hc
      · exact absurd hceq (ne_of_lt (hl1 c hc))
      · rcases List.mem_cons.mp hc with rfl | hc
        · exact le_refl _
        · have hpoststep := (List.pairwise_append.mp hmono).2.1
          exact le_of_lt ((List.pairwise_cons.mp hpoststep).1 c hc)

/-- The spec's tie-break example bid submitted at time 50 by `bidderY`. -/
def tieBidEarly : Bid :=
  { id := "t1", bidder := "bidderY", amount := 5
    ciphertext := [], publicKey := [], nonce := [], timestamp := 50 }

/-- The spec's tie-break example bid submitted at time 100 by `bidderX`. -/
def tieBidLate : Bid :=
  { id := "t2", bidder := "bidderX", amount := 5
    ciphertext := [], publicKey := [], nonce := [], timestamp := 100 }

/-- Witness for C4 on the spec's tie-break example (amount 5 at times 50 and
100): the hypotheses hold and the winner is the earlier bid. -/
theorem winner_selection_witness :
    ∃ b ∈ [tieBidEarly, tieBidLate],
      computeWinner [tieBidEarly, tieBidLate] 0 "" = (b.amount, b.bidder) ∧
      (∀ c ∈ [tieBidEarly, tieBidLate], c.amount ≤ b.amount) ∧
      (∀ c ∈ [tieBidEarly, tieBidLate], c.amount = b.amount → b.timestamp ≤ c.timestamp) :=
  winner_selection [tieBidEarly, tieBidLate] (by decide) (by decide) (by decide)

/-! ## C6: late bid submissions -/

/-- An auction ending at time 100 for the late-bid trace. -/
def lateAuction : Auction := initialAuction "a2" "creator" "item2" "demo" 1 100 0

/-- Card state at creation time 0. -/
def lateS0 : CardState := initState lateAuction 0

/-- Fifty milliseconds pass (auction still open). -/
def lateS1 : CardState := { lateS0 with now := lateS0.now + 50 }

/-- The bid form is opened while the auction is open. -/
def lateS2 : CardState := { lateS1 with showBidForm := true }

/-- A hundred more milliseconds pass: now is 150, fifty past the end time,
but the open form stays rendered (`showBidForm` alone guards it). -/
def lateS3 : CardState := { lateS2 with now := lateS2.now + 100 }

/-- The bid `bob` submits at time 150, after the auction has ended. -/
def lateBid : Bid :=
  { id := "b9", bidder := "bob", amount := 1
    ciphertext := [], publicKey := [], nonce := [], timestamp := 150 }

/-- State after the late submission is appended. -/
def lateS4 : CardState :=
  { lateS3 with
    auction := { lateS3.auction with bids := lateS3.auction.bids ++ [lateBid] }
    showBidForm := false }

/-- C6: a late bid is accepted, not rejected.  The state `lateS3` — current
time 150, end time 100, empty bid list, form already open — is reachable,
and from it the submit event fires (its only guards are the open form and
`validateBid`) and appends the bid: neither `BidSubmission.handleSubmit` nor
`AuctionCard.handleBidSubmitted` re-checks `endTime` or `status`. -/
theorem late_bid_appended :
    Reachable lateS0 lateS3 ∧
    lateS3.auction.endTime ≤ lateS3.now ∧
    lateS3.auction.bids = [] ∧
    Step lateS3 (Act.submitForm "b9" "bob" 1 [] [] []) lateS4 ∧
    lateS4.auction.bids = [lateBid] := by
  refine ⟨?_, by decide, rfl, ?_, rfl⟩
  · exact
      Reachable.step
        (Reachable.step
          (Reachable.step (Reachable.refl lateS0) (Step.tick lateS0 50))
          (Step.openForm lateS1 (by decide) rfl))
        (Step.tick lateS2 100)
  · exact Step.submitForm lateS3 "b9" "bob" 1 [] [] [] rfl (by rfl)

/-! ## C3: cleartext amounts in the auction record -/

/-- An auction ending at time 100 for the confidentiality trace. -/
def confAuction : Auction := initialAuction "a3" "creator" "item3" "demo" 1 100 0

/-- Card state at creation time 0. -/
def confS0 : CardState := initState confAuction 0

/-- The bid form opens for the first bidder. -/
def confS1 : CardState := { confS0 with showBidForm := true }

/-- The bid object stored for `alice`: its clear `amount` field is 5. -/
def confBid1 : Bid :=
  { id := "c1", bidder := "alice", amount := 5
    ciphertext := [], publicKey := [], nonce := [], timestamp := 0 }

/-- State after `alice` submits 5 SOL. -/
def confS2 : CardState :=
  { confS1 with
    auction := { confS1.auction with bids := confS1.auction.bids ++ [confBid1] }
    showBidForm := false }

/-- One millisecond passes. -/
def confS3 : CardState := { confS2 with now := confS2.now + 1 }

/-- The bid form opens for the second bidder. -/
def confS4 : CardState := { confS3 with showBidForm := true }

/-- The bid object stored for `bob`: its clear `amount` field is 3. -/
def confBid2 : Bid :=
  { id := "c2", bidder := "bob", amount := 3
    ciphertext := [], publicKey := [], nonce := [], timestamp := 1 }

/-- State after `bob` submits 3 SOL. -/
def confS5 : CardState :=
  { confS4 with
    auction := { confS4.auction with bids := confS4.auction.bids ++ [confBid2] }
    showBidForm := false }

/-- The clock reaches the end time. -/
def confS6 : CardState := { confS5 with now := confS5.now + 99 }

/-- State after finalization. -/
def confS7 : CardState := { confS6 with auction := (handleFinalize confS6.auction).2 }

/-- C3: clear amounts are stored in the shared auction record and survive
settlement.  In the reachable settled state `confS7` the auction is
finalized with winner `alice` at 5 SOL, yet the record's bid list still
holds both bid objects with their cleartext `amount` fields — including the
losing bid's 3 SOL — and the settlement itself computed the winner by
reading exactly those cleartext fields (`computeWinner` inside
`handleFinalize`), not by decrypting `ciphertext`. -/
theorem losing_clear_amount_retained :
    Reachable confS0 confS7 ∧
    confS7.auction.status = .finalized ∧
    confS7.auction.winner = some "alice" ∧
    confS7.auction.winningBid = some 5 ∧
    confS7.auction.bids = [confBid1, confBid2] ∧
    confBid2.amount = 3 ∧ confBid2.bidder = "bob" := by
  refine ⟨?_, rfl, by rfl, by rfl, rfl, rfl, rfl⟩
  exact
    Reachable.step
      (Reachable.step
        (Reachable.step
          (Reachable.step
            (Reachable.step
              (Reachable.step
                (Reachable.step (Reachable.refl confS0)
                  (Step.openForm confS0 (by decide) rfl))
                (Step.submitForm confS1 "c1" "alice" 5 [] [] [] rfl (by rfl)))
              (Step.tick confS2 1))
            (Step.openForm confS3 (by decide) rfl))
          (Step.submitForm confS4 "c2" "bob" 3 [] [] [] rfl (by rfl)))
        (Step.tick confS5 99))
      (Step.finalizeClick confS6 (by decide) (by decide))
